import Mathlib

/-!
# Signature-chain voting state (`consensus/ising/voting/sigchain.go`)

A shallow embedding of `SigChainVoting` and its methods, followed by the
properties of the specification that were checked against it.

Conventions of the embedding.

* The receiver `*SigChainVoting` is passed explicitly; a method that assigns to
  a field returns the new value of the struct.  The embedded `sync.RWMutex`
  is not modelled: every method body is one critical section and the model is
  sequential.
* A Go map is a function into `Option`; `none` is "no entry" (the `ok = false`
  of the two-valued index expression).
* A Go pointer is an `Option`; `none` is the nil pointer.  The `*State` values
  stored in the maps are only ever created by `new(State)` inside the two
  setters, so no two entries alias and an entry is modelled by the value it
  points to.
* A run-time panic (nil dereference, write into a nil map) is the result
  `none` of a method that returns `Option`.
* `uint32` and `uint64` values are natural numbers; the one place where
  arithmetic can overflow (`GetHeight() + 2`) is reduced modulo `2 ^ 32`.
-/

namespace Voting

/-- The `Uint256` hash type of package `common`, read as a number.  Only
equality and the zero value are used by this file. -/
abbrev Uint256 := Nat

/-- The three things `sigchain.go` uses of the type `State`, which is declared
with its methods `SetBit` and `HasBit` in another file of package `voting`.
They are parameters of the embedding: the zero value that `new(State)` points
to, the value `*s` holds after `s.SetBit(b)`, and the answer of
`s.HasBit(b)`. -/
structure StateOps (σ : Type) where
  /-- the value `new(State)` points to -/
  new : σ
  /-- the receiver after `SetBit` -/
  SetBit : σ → σ → σ
  /-- the answer of `HasBit` -/
  HasBit : σ → σ → Bool

/-- Modelled from the spec: the bit-flag reading of `State` ("a fixed-width
unsigned integer with named bit constants"; `SetProposerState` "ORs in" the
phase, `HasProposerState` "tests the bit").  It is used as the concrete
instance at which the parametric results are evaluated. -/
def bitOps : StateOps Nat where
  new := 0
  SetBit := fun s b => s ||| b
  HasBit := fun s b => s &&& b == b

/-- The type `map[Uint256]*State`. -/
abbrev StateMap (σ : Type) := Uint256 → Option (Option σ)

/-- The methods of `*por.PorServer` that `sigchain.go` calls, together with
the `Hash` method of the chain handle they return (taken to return a value).
`SigChain` is the type of the handle (nil included), `ChainHash` the type
`Hash` returns, and an `error` is `none` when it is nil.  The first component
of `IsSigChainExist` is the `*Uint256` it returns, `none` when nil. -/
structure PorServer (SigChain ChainHash Err : Type) where
  GetMinSigChain : Nat → SigChain × Option Err
  GetSigChain : Nat → Uint256 → SigChain × Option Err
  Hash : SigChain → ChainHash
  IsSigChainExist : ChainHash → Nat → Option Uint256 × Bool

/-- The method of `*transaction.TxnCollector` that `sigchain.go` calls; the
result is a reference to a transaction, `none` when it is nil. -/
structure TxnCollector (Txn : Type) where
  GetTransaction : Uint256 → Option Txn

/-- The struct `SigChainVoting` (lines 12-21), without its mutex. -/
structure SigChainVoting (σ SigChain ChainHash Err Txn Pool : Type) where
  /-- consensus state for proposer -/
  pstate : StateMap σ
  /-- consensus state for voter: `map[uint64]map[Uint256]*State`; an entry
  `some none` is a nil inner map -/
  vstate : Nat → Option (Option (StateMap σ))
  /-- voting height -/
  height : Nat
  /-- signature chain service provider -/
  porServer : PorServer SigChain ChainHash Err
  /-- signature chain voting pool -/
  pool : Pool
  /-- signature chain hash in process -/
  confirmingHash : Uint256
  /-- transaction pool -/
  txnCollector : TxnCollector Txn

section Methods

variable {σ SigChain ChainHash Err Txn Pool : Type}

/-- `NewSigChainVoting` (lines 23-34).  `NewSigChainVotingPool` is the pool
constructor of package `voting` and `ledgerHeight` is the value
`ledger.DefaultLedger.Store.GetHeight()` returns during the call. -/
def NewSigChainVoting (NewSigChainVotingPool : Int → Pool) (ledgerHeight : Nat)
    (totalWeight : Int) (porServer : PorServer SigChain ChainHash Err)
    (txnCollector : TxnCollector Txn) :
    SigChainVoting σ SigChain ChainHash Err Txn Pool where
  pstate := fun _ => none
  vstate := fun _ => none
  height := (ledgerHeight + 2) % 2 ^ 32
  porServer := porServer
  pool := NewSigChainVotingPool totalWeight
  confirmingHash := 0
  txnCollector := txnCollector

/-- `SetProposerState` (lines 36-44).  The result is `none` when
`scv.pstate[hash]` is a nil pointer, which `SetBit` dereferences. -/
def SetProposerState (ops : StateOps σ)
    (scv : SigChainVoting σ SigChain ChainHash Err Txn Pool)
    (hash : Uint256) (s : σ) :
    Option (SigChainVoting σ SigChain ChainHash Err Txn Pool) :=
  let pstate : StateMap σ :=
    match scv.pstate hash with
    | none => Function.update scv.pstate hash (some (some ops.new))
    | some _ => scv.pstate
  match pstate hash with
  | some (some v) =>
    some { scv with pstate := Function.update pstate hash (some (some (ops.SetBit v s))) }
  | _ => none

/-- `HasProposerState` (lines 46-58). -/
def HasProposerState (ops : StateOps σ)
    (scv : SigChainVoting σ SigChain ChainHash Err Txn Pool)
    (hash : Uint256) (state : σ) : Bool :=
  match scv.pstate hash with
  | none => false
  | some none => false
  | some (some v) => if ops.HasBit v state then true else false

/-- `SetVoterState` (lines 60-71).  The result is `none` when the inner map
of `id` is a nil map (the write at line 68 panics) or when the entry of
`hash` is a nil pointer (line 70 dereferences it). -/
def SetVoterState (ops : StateOps σ)
    (scv : SigChainVoting σ SigChain ChainHash Err Txn Pool)
    (id : Nat) (hash : Uint256) (s : σ) :
    Option (SigChainVoting σ SigChain ChainHash Err Txn Pool) :=
  let vstate : Nat → Option (Option (StateMap σ)) :=
    match scv.vstate id with
    | none => Function.update scv.vstate id (some (some (fun _ => none)))
    | some _ => scv.vstate
  match vstate id with
  | some (some inner) =>
    let inner2 : StateMap σ :=
      match inner hash with
      | none => Function.update inner hash (some (some ops.new))
      | some _ => inner
    match inner2 hash with
    | some (some v) =>
      some { scv with
        vstate := Function.update vstate id
          (some (some (Function.update inner2 hash (some (some (ops.SetBit v s)))))) }
    | _ => none
  | _ => none

/-- `HasVoterState` (lines 73-89).  Indexing a nil inner map reads as "no
entry". -/
def HasVoterState (ops : StateOps σ)
    (scv : SigChainVoting σ SigChain ChainHash Err Txn Pool)
    (id : Nat) (hash : Uint256) (state : σ) : Bool :=
  match scv.vstate id with
  | none => false
  | some m =>
    let entry : Option (Option σ) :=
      match m with
      | none => none
      | some inner => inner hash
    match entry with
    | none => false
    | some none => false
    | some (some v) => if ops.HasBit v state then true else false

/-- `SetVotingHeight` (lines 91-93). -/
def SetVotingHeight (scv : SigChainVoting σ SigChain ChainHash Err Txn Pool)
    (height : Nat) : SigChainVoting σ SigChain ChainHash Err Txn Pool :=
  { scv with height := height }

/-- `UpdateVotingHeight` (lines 95-97); `ledgerHeight` is the value
`ledger.DefaultLedger.Store.GetHeight()` returns during the call. -/
def UpdateVotingHeight (scv : SigChainVoting σ SigChain ChainHash Err Txn Pool)
    (ledgerHeight : Nat) : SigChainVoting σ SigChain ChainHash Err Txn Pool :=
  { scv with height := (ledgerHeight + 2) % 2 ^ 32 }

/-- `GetVotingHeight` (lines 99-101). -/
def GetVotingHeight (scv : SigChainVoting σ SigChain ChainHash Err Txn Pool) : Nat :=
  scv.height

/-- `SetConfirmingHash` (lines 103-105). -/
def SetConfirmingHash (scv : SigChainVoting σ SigChain ChainHash Err Txn Pool)
    (hash : Uint256) : SigChainVoting σ SigChain ChainHash Err Txn Pool :=
  { scv with confirmingHash := hash }

/-- `GetConfirmingHash` (lines 107-109). -/
def GetConfirmingHash (scv : SigChainVoting σ SigChain ChainHash Err Txn Pool) : Uint256 :=
  scv.confirmingHash

/-- `GetBestVotingContent` (lines 111-120).  The pair is the Go result
`(VotingContent, error)`, the content being the transaction reference it
carries.  The result is `none` when `txnHash` is nil, because line 117
dereferences it whatever the discarded boolean was. -/
def GetBestVotingContent (scv : SigChainVoting σ SigChain ChainHash Err Txn Pool)
    (height : Nat) : Option (Option Txn × Option Err) :=
  match scv.porServer.GetMinSigChain height with
  | (_, some err) => some (none, some err)
  | (sigChain, none) =>
    match scv.porServer.IsSigChainExist (scv.porServer.Hash sigChain) height with
    | (none, _) => none
    | (some txnHash, _) => some (scv.txnCollector.GetTransaction txnHash, none)

/-- `GetWorseVotingContent` (lines 122-124). -/
def GetWorseVotingContent (_scv : SigChainVoting σ SigChain ChainHash Err Txn Pool)
    (_height : Nat) : Option Txn × Option Err :=
  (none, none)

/-- `GetVotingContent` (lines 126-135); the result is read as for
`GetBestVotingContent`. -/
def GetVotingContent (scv : SigChainVoting σ SigChain ChainHash Err Txn Pool)
    (hash : Uint256) (height : Nat) : Option (Option Txn × Option Err) :=
  match scv.porServer.GetSigChain height hash with
  | (_, some err) => some (none, some err)
  | (sigChain, none) =>
    match scv.porServer.IsSigChainExist (scv.porServer.Hash sigChain) height with
    | (none, _) => none
    | (some txnHash, _) => some (scv.txnCollector.GetTransaction txnHash, none)

/-- `Preparing` (lines 141-143): the returned error, always nil. -/
def Preparing (_scv : SigChainVoting σ SigChain ChainHash Err Txn Pool)
    (_content : Option Txn) : Option Err :=
  none

/-- `Exist` (lines 145-152). -/
def Exist (scv : SigChainVoting σ SigChain ChainHash Err Txn Pool)
    (hash : Uint256) (_height : Nat) : Bool :=
  match scv.txnCollector.GetTransaction hash with
  | none => false
  | some _ => true

/-- `GetVotingPool` (lines 154-156). -/
def GetVotingPool (scv : SigChainVoting σ SigChain ChainHash Err Txn Pool) : Pool :=
  scv.pool

/-- `VotingType` (lines 137-139); `SigChainTxnVote` is a constant of package
`voting` declared in another file. -/
def VotingType {τ : Type} (SigChainTxnVote : τ)
    (_scv : SigChainVoting σ SigChain ChainHash Err Txn Pool) : τ :=
  SigChainTxnVote

/-- `DumpState` (lines 158-159): an empty body. -/
def DumpState (_scv : SigChainVoting σ SigChain ChainHash Err Txn Pool)
    (_hash : Uint256) (_desc : String) (_verbose : Bool) : Unit :=
  ()

end Methods

/-! ## Sequences of calls -/

/-- One call of a public method of `*SigChainVoting` with its arguments.  For
`UpdateVotingHeight` the argument is the ledger height read during the
call. -/
inductive Op (σ Txn : Type) where
  | SetProposerState (hash : Uint256) (s : σ)
  | HasProposerState (hash : Uint256) (state : σ)
  | SetVoterState (id : Nat) (hash : Uint256) (s : σ)
  | HasVoterState (id : Nat) (hash : Uint256) (state : σ)
  | SetVotingHeight (height : Nat)
  | UpdateVotingHeight (ledgerHeight : Nat)
  | GetVotingHeight
  | SetConfirmingHash (hash : Uint256)
  | GetConfirmingHash
  | GetBestVotingContent (height : Nat)
  | GetWorseVotingContent (height : Nat)
  | GetVotingContent (hash : Uint256) (height : Nat)
  | VotingType
  | Preparing (content : Option Txn)
  | Exist (hash : Uint256) (height : Nat)
  | GetVotingPool
  | DumpState (hash : Uint256) (desc : String) (verbose : Bool)

section Runs

variable {σ SigChain ChainHash Err Txn Pool : Type}

/-- The struct after one call.  The five methods with an assignment in their
body yield what that body leaves; the bodies of the other twelve assign to
no field, so the struct is as before (also when a content lookup panics). -/
def step (ops : StateOps σ) :
    Op σ Txn → SigChainVoting σ SigChain ChainHash Err Txn Pool →
      Option (SigChainVoting σ SigChain ChainHash Err Txn Pool)
  | .SetProposerState hash s, scv => SetProposerState ops scv hash s
  | .SetVoterState id hash s, scv => SetVoterState ops scv id hash s
  | .SetVotingHeight height, scv => some (SetVotingHeight scv height)
  | .UpdateVotingHeight ledgerHeight, scv => some (UpdateVotingHeight scv ledgerHeight)
  | .SetConfirmingHash hash, scv => some (SetConfirmingHash scv hash)
  | .HasProposerState _ _, scv => some scv
  | .HasVoterState _ _ _, scv => some scv
  | .GetVotingHeight, scv => some scv
  | .GetConfirmingHash, scv => some scv
  | .GetBestVotingContent _, scv => some scv
  | .GetWorseVotingContent _, scv => some scv
  | .GetVotingContent _ _, scv => some scv
  | .VotingType, scv => some scv
  | .Preparing _, scv => some scv
  | .Exist _ _, scv => some scv
  | .GetVotingPool, scv => some scv
  | .DumpState _ _ _, scv => some scv

/-- The struct after a sequence of calls, first call first; `none` as soon
as one of them panics. -/
def run (ops : StateOps σ) :
    List (Op σ Txn) → SigChainVoting σ SigChain ChainHash Err Txn Pool →
      Option (SigChainVoting σ SigChain ChainHash Err Txn Pool)
  | [], scv => some scv
  | op :: rest, scv => (step ops op scv).bind (run ops rest)

/-- A state is reachable when some sequence of public calls leads to it from
a struct built by `NewSigChainVoting`. -/
def Reachable (ops : StateOps σ)
    (scv : SigChainVoting σ SigChain ChainHash Err Txn Pool) : Prop :=
  ∃ (newPool : Int → Pool) (ledgerHeight : Nat) (totalWeight : Int)
    (porServer : PorServer SigChain ChainHash Err) (txnCollector : TxnCollector Txn)
    (trace : List (Op σ Txn)),
    run ops trace (NewSigChainVoting newPool ledgerHeight totalWeight porServer txnCollector)
      = some scv

/-- No nil pointer and no nil inner map is stored in the two state maps. -/
def NoNil (scv : SigChainVoting σ SigChain ChainHash Err Txn Pool) : Prop :=
  (∀ hash, scv.pstate hash ≠ some none) ∧
  (∀ id, scv.vstate id ≠ some none) ∧
  (∀ id inner, scv.vstate id = some (some inner) → ∀ hash, inner hash ≠ some none)

end Runs

/-! ## What the queries observe -/

section Observations

variable {σ SigChain ChainHash Err Txn Pool : Type}

/-- The value and `ok` of the double index `scv.vstate[id][hash]` (lines 67
and 80): indexing a missing or nil inner map gives "no entry". -/
def voterEntry (scv : SigChainVoting σ SigChain ChainHash Err Txn Pool)
    (id : Nat) (hash : Uint256) : Option (Option σ) :=
  match scv.vstate id with
  | some (some inner) => inner hash
  | _ => none

/-- The answer both queries compute from the map entry they found (lines 50-57
and 80-87). -/
def entryHas (ops : StateOps σ) (entry : Option (Option σ)) (state : σ) : Bool :=
  match entry with
  | some (some v) => ops.HasBit v state
  | _ => false

/-- The `State` a setter applies `SetBit` to: the one the entry points to, the
fresh `new(State)` when there was no entry. -/
def entryValue (ops : StateOps σ) (entry : Option (Option σ)) : σ :=
  match entry with
  | some (some v) => v
  | _ => ops.new

/-- The entry a query reads: that of the proposer map when `who` is `none`,
that of voter `id` when `who` is `some id`. -/
def entryAt (scv : SigChainVoting σ SigChain ChainHash Err Txn Pool)
    (who : Option Nat) (hash : Uint256) : Option (Option σ) :=
  match who with
  | none => scv.pstate hash
  | some id => voterEntry scv id hash

/-- The setter that writes the entry `entryAt` reads: `SetProposerState` when
`who` is `none`, `SetVoterState` of voter `id` when `who` is `some id`. -/
def setCall (ops : StateOps σ) (scv : SigChainVoting σ SigChain ChainHash Err Txn Pool)
    (who : Option Nat) (hash : Uint256) (s : σ) :
    Option (SigChainVoting σ SigChain ChainHash Err Txn Pool) :=
  match who with
  | none => SetProposerState ops scv hash s
  | some id => SetVoterState ops scv id hash s

/-- The call that `setCall` performs. -/
def setOp {Txn : Type} (who : Option Nat) (hash : Uint256) (s : σ) : Op σ Txn :=
  match who with
  | none => Op.SetProposerState hash s
  | some id => Op.SetVoterState id hash s

end Observations

/-! ## Sample collaborators

Concrete collaborators at which the results below are evaluated.  Chain
handles, chain hashes, errors, transactions and pools are numbers here. -/

/-- A relay selector that knows three chains.  Handle `7` (hash `70`) is the
minimal chain of height `5`, is found there under hash `9`, and has the
transaction hash `11`.  Handle `8` (hash `80`) is the minimal chain of height
`6`, is found there under hash `10`, and has no transaction hash.  Handle `12`
(hash `120`) is the minimal chain of height `8`, is found there under hash
`14`, and has the transaction hash `13`.  Every other request fails with
error `404`. -/
def samplePor : PorServer Nat Nat Nat where
  GetMinSigChain := fun height =>
    if height = 5 then (7, none)
    else if height = 6 then (8, none)
    else if height = 8 then (12, none) else (0, some 404)
  GetSigChain := fun height hash =>
    if height = 5 ∧ hash = 9 then (7, none)
    else if height = 6 ∧ hash = 10 then (8, none)
    else if height = 8 ∧ hash = 14 then (12, none) else (0, some 404)
  Hash := fun sigChain => 10 * sigChain
  IsSigChainExist := fun chainHash height =>
    if chainHash = 70 ∧ height = 5 then (some 11, true)
    else if chainHash = 120 ∧ height = 8 then (some 13, true) else (none, false)

/-- A content store that holds transaction `1100` under hash `11` and nothing
else. -/
def sampleTxns : TxnCollector Nat where
  GetTransaction := fun hash => if hash = 11 then some 1100 else none

/-- A freshly constructed component over the sample collaborators, built
while the ledger height is `40`. -/
def sampleVoting : SigChainVoting Nat Nat Nat Nat Nat Int :=
  NewSigChainVoting (fun totalWeight => totalWeight) 40 3 samplePor sampleTxns

/-! ## Auxiliary facts about the two setters -/

section Lemmas

variable {σ SigChain ChainHash Err Txn Pool : Type}

/-- What a returning `SetProposerState` leaves: the entry of `hash` holds the
old value (the fresh one when there was no entry) with the bits set, and
nothing else is touched. -/
theorem SetProposerState_spec (ops : StateOps σ)
    (scv s1 : SigChainVoting σ SigChain ChainHash Err Txn Pool) (hash : Uint256) (s : σ)
    (hs : SetProposerState ops scv hash s = some s1) :
    ∃ v, (scv.pstate hash = none ∧ v = ops.new ∨ scv.pstate hash = some (some v)) ∧
      s1 = { scv with
        pstate := Function.update scv.pstate hash (some (some (ops.SetBit v s))) } := by
  unfold SetProposerState at hs
  rcases hc : scv.pstate hash with _ | _ | v
  · simp [hc] at hs
    exact ⟨ops.new, Or.inl ⟨rfl, rfl⟩, hs.symm⟩
  · simp [hc] at hs
  · simp [hc] at hs
    exact ⟨v, Or.inr rfl, hs.symm⟩

/-- The call `SetProposerState` returns unless the entry is a nil pointer. -/
theorem SetProposerState_returns (ops : StateOps σ)
    (scv : SigChainVoting σ SigChain ChainHash Err Txn Pool) (hash : Uint256) (s : σ)
    (hn : scv.pstate hash ≠ some none) :
    ∃ s1, SetProposerState ops scv hash s = some s1 := by
  unfold SetProposerState
  rcases hc : scv.pstate hash with _ | _ | v
  · simp
  · exact absurd hc hn
  · simp [hc]

/-- What a returning `SetVoterState` leaves. -/
theorem SetVoterState_spec (ops : StateOps σ)
    (scv s1 : SigChainVoting σ SigChain ChainHash Err Txn Pool) (id : Nat) (hash : Uint256)
    (s : σ) (hs : SetVoterState ops scv id hash s = some s1) :
    ∃ inner v,
      (scv.vstate id = none ∧ inner = (fun _ => none) ∨ scv.vstate id = some (some inner)) ∧
      (inner hash = none ∧ v = ops.new ∨ inner hash = some (some v)) ∧
      s1 = { scv with
        vstate := Function.update scv.vstate id
          (some (some (Function.update inner hash (some (some (ops.SetBit v s)))))) } := by
  unfold SetVoterState at hs
  rcases hc : scv.vstate id with _ | _ | inner
  · simp [hc] at hs
    exact ⟨fun _ => none, ops.new, Or.inl ⟨rfl, rfl⟩, Or.inl ⟨rfl, rfl⟩, hs.symm⟩
  · simp [hc] at hs
  · rcases hi : inner hash with _ | _ | v
    · simp [hc, hi] at hs
      exact ⟨inner, ops.new, Or.inr rfl, Or.inl ⟨hi, rfl⟩, hs.symm⟩
    · simp [hc, hi] at hs
    · simp [hc, hi] at hs
      exact ⟨inner, v, Or.inr rfl, Or.inr hi, hs.symm⟩

/-- The call `SetVoterState` returns when no nil is stored. -/
theorem SetVoterState_returns (ops : StateOps σ)
    (scv : SigChainVoting σ SigChain ChainHash Err Txn Pool) (id : Nat) (hash : Uint256)
    (s : σ) (hn : NoNil scv) :
    ∃ s1, SetVoterState ops scv id hash s = some s1 := by
  unfold SetVoterState
  rcases hc : scv.vstate id with _ | _ | inner
  · simp
  · exact absurd hc (hn.2.1 id)
  · rcases hi : inner hash with _ | _ | v
    · simp [hc, hi]
    · exact absurd hi (hn.2.2 id inner hc hash)
    · simp [hc, hi]

/-- A freshly built struct stores no nil. -/
theorem NoNil_new (newPool : Int → Pool) (ledgerHeight : Nat) (totalWeight : Int)
    (porServer : PorServer SigChain ChainHash Err) (txnCollector : TxnCollector Txn) :
    NoNil (NewSigChainVoting newPool ledgerHeight totalWeight porServer txnCollector :
      SigChainVoting σ SigChain ChainHash Err Txn Pool) := by
  refine ⟨?_, ?_, ?_⟩ <;> simp [NewSigChainVoting]

/-- Every call keeps the maps free of nil. -/
theorem NoNil_step (ops : StateOps σ) (op : Op σ Txn)
    (scv s1 : SigChainVoting σ SigChain ChainHash Err Txn Pool)
    (hn : NoNil scv) (hs : step ops op scv = some s1) : NoNil s1 := by
  cases op
  case SetProposerState hash s =>
    obtain ⟨v, _, rfl⟩ := SetProposerState_spec ops scv s1 hash s hs
    refine ⟨fun h2 => ?_, hn.2.1, hn.2.2⟩
    by_cases he : h2 = hash
    · subst he; simp
    · simpa [Function.update_noteq he] using hn.1 h2
  case SetVoterState id hash s =>
    obtain ⟨inner, v, hin, _, rfl⟩ := SetVoterState_spec ops scv s1 id hash s hs
    refine ⟨hn.1, fun i2 => ?_, fun i2 inner2 h2 hash2 => ?_⟩
    · by_cases he : i2 = id
      · subst he; simp
      · simpa [Function.update_noteq he] using hn.2.1 i2
    · by_cases he : i2 = id
      · subst he
        simp at h2
        subst h2
        by_cases hh : hash2 = hash
        · subst hh; simp
        · rw [Function.update_noteq hh]
          rcases hin with ⟨_, rfl⟩ | hin
          · simp
          · exact hn.2.2 i2 inner hin hash2
      · simp [Function.update_noteq he] at h2
        exact hn.2.2 i2 inner2 h2 hash2
  all_goals
    simp only [step, Option.some.injEq] at hs
    subst hs
    exact hn

/-- A sequence of calls keeps the maps free of nil. -/
theorem NoNil_run (ops : StateOps σ) (trace : List (Op σ Txn)) :
    ∀ scv s1 : SigChainVoting σ SigChain ChainHash Err Txn Pool,
      NoNil scv → run ops trace scv = some s1 → NoNil s1 := by
  induction trace with
  | nil =>
    intro scv s1 hn hr
    simp only [run, Option.some.injEq] at hr
    exact hr ▸ hn
  | cons op rest ih =>
    intro scv s1 hn hr
    simp only [run] at hr
    rcases hst : step ops op scv with _ | s2
    · simp [hst] at hr
    · rw [hst] at hr
      exact ih s2 s1 (NoNil_step ops op scv s2 hn hst) hr

/-- Reachable states store no nil. -/
theorem NoNil_of_reachable (ops : StateOps σ)
    (scv : SigChainVoting σ SigChain ChainHash Err Txn Pool) (hr : Reachable ops scv) :
    NoNil scv := by
  obtain ⟨newPool, l, w, por, txc, trace, h⟩ := hr
  exact NoNil_run ops trace _ scv (NoNil_new newPool l w por txc) h

/-- From a state without nil no call panics. -/
theorem step_returns (ops : StateOps σ) (op : Op σ Txn)
    (scv : SigChainVoting σ SigChain ChainHash Err Txn Pool) (hn : NoNil scv) :
    ∃ s1, step ops op scv = some s1 := by
  cases op
  case SetProposerState hash s => exact SetProposerState_returns ops scv hash s (hn.1 hash)
  case SetVoterState id hash s => exact SetVoterState_returns ops scv id hash s hn
  all_goals exact ⟨_, rfl⟩

/-- From a state without nil every sequence of calls runs to its end. -/
theorem run_returns (ops : StateOps σ) (trace : List (Op σ Txn)) :
    ∀ scv : SigChainVoting σ SigChain ChainHash Err Txn Pool,
      NoNil scv → ∃ s1, run ops trace scv = some s1 := by
  induction trace with
  | nil => exact fun scv _ => ⟨scv, rfl⟩
  | cons op rest ih =>
    intro scv hn
    obtain ⟨s2, h2⟩ := step_returns ops op scv hn
    obtain ⟨s3, h3⟩ := ih s2 (NoNil_step ops op scv s2 hn h2)
    exact ⟨s3, by simp [run, h2, h3]⟩

/-- A call other than `SetProposerState` on `hash` leaves the proposer entry
of `hash` as it is. -/
theorem step_pstate_other (ops : StateOps σ) (op : Op σ Txn)
    (scv s1 : SigChainVoting σ SigChain ChainHash Err Txn Pool) (hash : Uint256)
    (hop : ∀ s, op ≠ Op.SetProposerState hash s) (hs : step ops op scv = some s1) :
    s1.pstate hash = scv.pstate hash := by
  cases op
  case SetProposerState h2 s =>
    obtain ⟨v, _, rfl⟩ := SetProposerState_spec ops scv s1 h2 s hs
    have hne : hash ≠ h2 := fun he => hop s (by rw [he])
    simp [Function.update_noteq hne]
  case SetVoterState id h2 s =>
    obtain ⟨inner, v, _, _, rfl⟩ := SetVoterState_spec ops scv s1 id h2 s hs
    rfl
  all_goals
    simp only [step, Option.some.injEq] at hs
    subst hs
    rfl

/-- A sequence of calls without `SetProposerState` on `hash` leaves the
proposer entry of `hash` as it is. -/
theorem run_pstate_other (ops : StateOps σ) (hash : Uint256) (trace : List (Op σ Txn)) :
    ∀ scv s1 : SigChainVoting σ SigChain ChainHash Err Txn Pool,
      (∀ s, Op.SetProposerState hash s ∉ trace) → run ops trace scv = some s1 →
        s1.pstate hash = scv.pstate hash := by
  induction trace with
  | nil =>
    intro scv s1 _ hr
    simp only [run, Option.some.injEq] at hr
    rw [hr]
  | cons op rest ih =>
    intro scv s1 hnever hr
    simp only [run] at hr
    rcases hst : step ops op scv with _ | s2
    · simp [hst] at hr
    · rw [hst] at hr
      have hop : ∀ s, op ≠ Op.SetProposerState hash s := by
        intro s he
        exact hnever s (by simp [he])
      have hrest : ∀ s, Op.SetProposerState hash s ∉ rest := by
        intro s hm
        exact hnever s (List.mem_cons_of_mem _ hm)
      rw [ih s2 s1 hrest hr, step_pstate_other ops op scv s2 hash hop hst]

/-- The bit-flag instance answers true for bits that were just set. -/
theorem bitOps_HasBit_SetBit (v b : Nat) : bitOps.HasBit (bitOps.SetBit v b) b = true := by
  have h : (v ||| b) &&& b = b := by
    apply Nat.eq_of_testBit_eq
    intro i
    simp only [Nat.testBit_land, Nat.testBit_lor]
    cases v.testBit i <;> cases b.testBit i <;> rfl
  simp [bitOps, h]

/-- The bit-flag instance keeps answering true when further bits are set. -/
theorem bitOps_HasBit_keep (v b c : Nat) (hb : bitOps.HasBit v b = true) :
    bitOps.HasBit (bitOps.SetBit v c) b = true := by
  have hb2 : v &&& b = b := by simpa [bitOps] using hb
  have h : (v ||| c) &&& b = b := by
    apply Nat.eq_of_testBit_eq
    intro i
    have hi : (v &&& b).testBit i = b.testBit i := by rw [hb2]
    simp only [Nat.testBit_land, Nat.testBit_lor] at hi ⊢
    revert hi
    cases v.testBit i <;> cases b.testBit i <;> cases c.testBit i <;> simp
  simp [bitOps, h]

/-- The sample component is reachable: it is freshly built. -/
theorem sampleVoting_reachable : Reachable bitOps sampleVoting :=
  ⟨fun totalWeight => totalWeight, 40, 3, samplePor, sampleTxns, [], rfl⟩

/-- The query `HasProposerState` is the entry test applied to the proposer
entry. -/
theorem HasProposerState_eq_entryHas (ops : StateOps σ)
    (scv : SigChainVoting σ SigChain ChainHash Err Txn Pool) (hash : Uint256) (state : σ) :
    HasProposerState ops scv hash state = entryHas ops (scv.pstate hash) state := by
  unfold HasProposerState entryHas
  rcases scv.pstate hash with _ | _ | v <;> simp

/-- The query `HasVoterState` is the entry test applied to the voter entry. -/
theorem HasVoterState_eq_entryHas (ops : StateOps σ)
    (scv : SigChainVoting σ SigChain ChainHash Err Txn Pool) (id : Nat) (hash : Uint256)
    (state : σ) :
    HasVoterState ops scv id hash state = entryHas ops (voterEntry scv id hash) state := by
  unfold HasVoterState entryHas voterEntry
  rcases scv.vstate id with _ | _ | inner
  · simp
  · simp
  · rcases hi : inner hash with _ | _ | v <;> simp [hi]

/-- The proposer entries after a returning `SetProposerState`. -/
theorem SetProposerState_pstate (ops : StateOps σ)
    (scv s1 : SigChainVoting σ SigChain ChainHash Err Txn Pool) (hash : Uint256) (s : σ)
    (hs : SetProposerState ops scv hash s = some s1) (hash2 : Uint256) :
    s1.pstate hash2 =
      if hash2 = hash then some (some (ops.SetBit (entryValue ops (scv.pstate hash)) s))
      else scv.pstate hash2 := by
  obtain ⟨v, hv, rfl⟩ := SetProposerState_spec ops scv s1 hash s hs
  have hval : entryValue ops (scv.pstate hash) = v := by
    rcases hv with ⟨hnone, rfl⟩ | hsome
    · simp [entryValue, hnone]
    · simp [entryValue, hsome]
  by_cases he : hash2 = hash
  · subst he; simp [hval]
  · simp [he, Function.update_noteq he]

/-- The fields a returning `SetProposerState` does not assign. -/
theorem SetProposerState_frame (ops : StateOps σ)
    (scv s1 : SigChainVoting σ SigChain ChainHash Err Txn Pool) (hash : Uint256) (s : σ)
    (hs : SetProposerState ops scv hash s = some s1) :
    s1.vstate = scv.vstate ∧ s1.height = scv.height ∧
      s1.confirmingHash = scv.confirmingHash ∧ s1.porServer = scv.porServer ∧
      s1.pool = scv.pool ∧ s1.txnCollector = scv.txnCollector := by
  obtain ⟨v, _, rfl⟩ := SetProposerState_spec ops scv s1 hash s hs
  exact ⟨rfl, rfl, rfl, rfl, rfl, rfl⟩

/-- The voter entries after a returning `SetVoterState`. -/
theorem SetVoterState_voterEntry (ops : StateOps σ)
    (scv s1 : SigChainVoting σ SigChain ChainHash Err Txn Pool) (id : Nat) (hash : Uint256)
    (s : σ) (hs : SetVoterState ops scv id hash s = some s1) (id2 : Nat) (hash2 : Uint256) :
    voterEntry s1 id2 hash2 =
      if id2 = id ∧ hash2 = hash then
        some (some (ops.SetBit (entryValue ops (voterEntry scv id hash)) s))
      else voterEntry scv id2 hash2 := by
  obtain ⟨inner, v, hin, hv, rfl⟩ := SetVoterState_spec ops scv s1 id hash s hs
  have hentry : voterEntry scv id hash = inner hash := by
    rcases hin with ⟨hnone, rfl⟩ | hsome
    · simp [voterEntry, hnone]
    · simp [voterEntry, hsome]
  have hval : entryValue ops (voterEntry scv id hash) = v := by
    rw [hentry]
    rcases hv with ⟨hnone, rfl⟩ | hsome
    · simp [entryValue, hnone]
    · simp [entryValue, hsome]
  by_cases hid : id2 = id
  · subst hid
    by_cases hh : hash2 = hash
    · subst hh
      rw [hval]
      simp [voterEntry]
    · have hother : voterEntry scv id2 hash2 = inner hash2 := by
        rcases hin with ⟨hnone, rfl⟩ | hsome
        · simp [voterEntry, hnone]
        · simp [voterEntry, hsome]
      simp [voterEntry, hh, Function.update_noteq hh] at hother ⊢
      exact hother.symm
  · simp [voterEntry, hid, Function.update_noteq hid]

/-- The fields a returning `SetVoterState` does not assign. -/
theorem SetVoterState_frame (ops : StateOps σ)
    (scv s1 : SigChainVoting σ SigChain ChainHash Err Txn Pool) (id : Nat) (hash : Uint256)
    (s : σ) (hs : SetVoterState ops scv id hash s = some s1) :
    s1.pstate = scv.pstate ∧ s1.height = scv.height ∧
      s1.confirmingHash = scv.confirmingHash ∧ s1.porServer = scv.porServer ∧
      s1.pool = scv.pool ∧ s1.txnCollector = scv.txnCollector := by
  obtain ⟨inner, v, _, _, rfl⟩ := SetVoterState_spec ops scv s1 id hash s hs
  exact ⟨rfl, rfl, rfl, rfl, rfl, rfl⟩

/-- A proposer setter leaves every voter entry as it was. -/
theorem SetProposerState_voterEntry (ops : StateOps σ)
    (scv s1 : SigChainVoting σ SigChain ChainHash Err Txn Pool) (hash : Uint256) (s : σ)
    (hs : SetProposerState ops scv hash s = some s1) (id2 : Nat) (hash2 : Uint256) :
    voterEntry s1 id2 hash2 = voterEntry scv id2 hash2 := by
  unfold voterEntry
  rw [(SetProposerState_frame ops scv s1 hash s hs).1]

/-- Setting further bits keeps the answer of the entry test, given that
`SetBit` keeps the tested bits. -/
theorem entryHas_keep (ops : StateOps σ) (p c : σ)
    (hkeep : ∀ x, ops.HasBit x p = true → ops.HasBit (ops.SetBit x c) p = true)
    (entry : Option (Option σ)) (he : entryHas ops entry p = true) :
    entryHas ops (some (some (ops.SetBit (entryValue ops entry) c))) p = true := by
  rcases entry with _ | _ | x
  · simp [entryHas] at he
  · simp [entryHas] at he
  · simp only [entryHas, entryValue] at he ⊢
    exact hkeep x he

/-- One call never clears a phase, given that `SetBit` keeps the tested
bits. -/
theorem step_keeps_phase (ops : StateOps σ) (h : Uint256) (v : Nat) (p : σ)
    (hkeep : ∀ x c, ops.HasBit x p = true → ops.HasBit (ops.SetBit x c) p = true)
    (op : Op σ Txn) (scv s1 : SigChainVoting σ SigChain ChainHash Err Txn Pool)
    (hs : step ops op scv = some s1) :
    (HasProposerState ops scv h p = true → HasProposerState ops s1 h p = true) ∧
    (HasVoterState ops scv v h p = true → HasVoterState ops s1 v h p = true) := by
  simp only [HasProposerState_eq_entryHas, HasVoterState_eq_entryHas]
  cases op
  case SetProposerState h2 c =>
    have hs2 : SetProposerState ops scv h2 c = some s1 := hs
    rw [SetProposerState_pstate ops scv s1 h2 c hs2 h,
      SetProposerState_voterEntry ops scv s1 h2 c hs2 v h]
    refine ⟨fun hp => ?_, id⟩
    by_cases he : h = h2
    · subst he
      simpa using entryHas_keep ops p c (fun x => hkeep x c) _ hp
    · simpa [he] using hp
  case SetVoterState v2 h2 c =>
    have hs2 : SetVoterState ops scv v2 h2 c = some s1 := hs
    rw [SetVoterState_voterEntry ops scv s1 v2 h2 c hs2 v h,
      (SetVoterState_frame ops scv s1 v2 h2 c hs2).1]
    refine ⟨id, fun hp => ?_⟩
    by_cases he : v = v2 ∧ h = h2
    · obtain ⟨rfl, rfl⟩ := he
      simpa using entryHas_keep ops p c (fun x => hkeep x c) _ hp
    · simpa [he] using hp
  all_goals
    simp only [step, Option.some.injEq] at hs
    subst hs
    exact ⟨id, id⟩

/-- The bit-flag instance: setting the same bits twice is setting them once. -/
theorem bitOps_SetBit_idem (v b : Nat) :
    bitOps.SetBit (bitOps.SetBit v b) b = bitOps.SetBit v b := by
  show (v ||| b) ||| b = v ||| b
  apply Nat.eq_of_testBit_eq
  intro i
  simp only [Nat.testBit_lor]
  cases v.testBit i <;> cases b.testBit i <;> rfl

/-- The bit-flag instance: setting bits that are all present changes no
answer. -/
theorem bitOps_SetBit_present (v b q : Nat) (hb : bitOps.HasBit v b = true) :
    bitOps.HasBit (bitOps.SetBit v b) q = bitOps.HasBit v q := by
  have hb2 : v &&& b = b := by simpa [bitOps] using hb
  have h : v ||| b = v := by
    apply Nat.eq_of_testBit_eq
    intro i
    have hi : (v &&& b).testBit i = b.testBit i := by rw [hb2]
    simp only [Nat.testBit_land, Nat.testBit_lor] at hi ⊢
    revert hi
    cases v.testBit i <;> cases b.testBit i <;> simp
  show ((v ||| b) &&& q == q) = (v &&& q == q)
  rw [h]

/-- The bit-flag instance: the order in which bits are set does not matter. -/
theorem bitOps_SetBit_comm (v b c : Nat) :
    bitOps.SetBit (bitOps.SetBit v b) c = bitOps.SetBit (bitOps.SetBit v c) b := by
  show (v ||| b) ||| c = (v ||| c) ||| b
  apply Nat.eq_of_testBit_eq
  intro i
  simp only [Nat.testBit_lor]
  cases v.testBit i <;> cases b.testBit i <;> cases c.testBit i <;> rfl

/-- The entries after a returning setter, proposer or voter. -/
theorem setCall_entryAt (ops : StateOps σ)
    (scv s1 : SigChainVoting σ SigChain ChainHash Err Txn Pool) (who : Option Nat)
    (hash : Uint256) (s : σ) (hs : setCall ops scv who hash s = some s1)
    (who2 : Option Nat) (hash2 : Uint256) :
    entryAt s1 who2 hash2 =
      if who2 = who ∧ hash2 = hash then
        some (some (ops.SetBit (entryValue ops (entryAt scv who hash)) s))
      else entryAt scv who2 hash2 := by
  cases who with
  | none =>
    have hs2 : SetProposerState ops scv hash s = some s1 := hs
    cases who2 with
    | none => simpa [entryAt] using SetProposerState_pstate ops scv s1 hash s hs2 hash2
    | some id2 => simpa [entryAt] using SetProposerState_voterEntry ops scv s1 hash s hs2 id2 hash2
  | some id =>
    have hs2 : SetVoterState ops scv id hash s = some s1 := hs
    cases who2 with
    | none =>
      simp [entryAt, (SetVoterState_frame ops scv s1 id hash s hs2).1]
    | some id2 => simpa [entryAt] using SetVoterState_voterEntry ops scv s1 id hash s hs2 id2 hash2

/-- Two setters applied in either order leave entries on which the entry test
agrees, given that the order of two `SetBit` is not seen by `HasBit`. -/
theorem setCall_comm (ops : StateOps σ) (p1 p2 : σ)
    (hcomm : ∀ x q, ops.HasBit (ops.SetBit (ops.SetBit x p1) p2) q
      = ops.HasBit (ops.SetBit (ops.SetBit x p2) p1) q)
    (scv m1 m2 s t : SigChainVoting σ SigChain ChainHash Err Txn Pool)
    (w1 w2 : Option Nat) (h1 h2 : Uint256)
    (ha : setCall ops scv w1 h1 p1 = some m1) (hab : setCall ops m1 w2 h2 p2 = some s)
    (hb : setCall ops scv w2 h2 p2 = some m2) (hba : setCall ops m2 w1 h1 p1 = some t)
    (w : Option Nat) (k : Uint256) (q : σ) :
    entryHas ops (entryAt s w k) q = entryHas ops (entryAt t w k) q := by
  rw [setCall_entryAt ops m1 s w2 h2 p2 hab w k, setCall_entryAt ops m2 t w1 h1 p1 hba w k,
    setCall_entryAt ops scv m1 w1 h1 p1 ha w k, setCall_entryAt ops scv m1 w1 h1 p1 ha w2 h2,
    setCall_entryAt ops scv m2 w2 h2 p2 hb w k, setCall_entryAt ops scv m2 w2 h2 p2 hb w1 h1]
  by_cases hsame : w2 = w1 ∧ h2 = h1
  · obtain ⟨rfl, rfl⟩ := hsame
    by_cases hk : w = w2 ∧ k = h2
    · simp [hk, entryHas, entryValue, hcomm]
    · simp [hk]
  · have hsame2 : ¬ (w1 = w2 ∧ h1 = h2) := fun hc => hsame ⟨hc.1.symm, hc.2.symm⟩
    by_cases hk1 : w = w1 ∧ k = h1
    · obtain ⟨rfl, rfl⟩ := hk1
      simp [hsame, hsame2]
    · by_cases hk2 : w = w2 ∧ k = h2
      · obtain ⟨rfl, rfl⟩ := hk2
        simp [hsame, hsame2]
      · simp [hk1, hk2, hsame, hsame2]

/-- A run of two calls is the second step after the first. -/
theorem run_pair (ops : StateOps σ) (a b : Op σ Txn)
    (scv s : SigChainVoting σ SigChain ChainHash Err Txn Pool)
    (hr : run ops [a, b] scv = some s) :
    ∃ m, step ops a scv = some m ∧ step ops b m = some s := by
  simp only [run] at hr
  rcases hst : step ops a scv with _ | m
  · simp [hst] at hr
  · rw [hst] at hr
    rcases hst2 : step ops b m with _ | s2
    · simp [hst2] at hr
    · refine ⟨m, rfl, ?_⟩
      simpa [hst2] using hr

/-- Two setter calls run in either order leave states on which every query
agrees, given that the order of two `SetBit` is not seen by `HasBit`. -/
theorem setOp_pair_comm (ops : StateOps σ) (p1 p2 : σ)
    (hcomm : ∀ x q, ops.HasBit (ops.SetBit (ops.SetBit x p1) p2) q
      = ops.HasBit (ops.SetBit (ops.SetBit x p2) p1) q)
    (scv s t : SigChainVoting σ SigChain ChainHash Err Txn Pool)
    (w1 w2 : Option Nat) (h1 h2 : Uint256)
    (hs : run ops [(setOp w1 h1 p1 : Op σ Txn), setOp w2 h2 p2] scv = some s)
    (ht : run ops [(setOp w2 h2 p2 : Op σ Txn), setOp w1 h1 p1] scv = some t) :
    (∀ h q, HasProposerState ops s h q = HasProposerState ops t h q) ∧
    (∀ v h q, HasVoterState ops s v h q = HasVoterState ops t v h q) := by
  have hstep : ∀ (w : Option Nat) (h : Uint256) (p : σ)
      (x : SigChainVoting σ SigChain ChainHash Err Txn Pool),
      step ops (setOp w h p : Op σ Txn) x = setCall ops x w h p := by
    intro w h p x
    cases w <;> rfl
  obtain ⟨m1, ha, hab⟩ := run_pair ops _ _ scv s hs
  obtain ⟨m2, hb, hba⟩ := run_pair ops _ _ scv t ht
  rw [hstep] at ha hab hb hba
  have key := setCall_comm ops p1 p2 hcomm scv m1 m2 s t w1 w2 h1 h2 ha hab hb hba
  refine ⟨fun h q => ?_, fun v h q => ?_⟩
  · rw [HasProposerState_eq_entryHas, HasProposerState_eq_entryHas]
    exact key none h q
  · rw [HasVoterState_eq_entryHas, HasVoterState_eq_entryHas]
    exact key (some v) h q

/-- Whatever `HasBit` is: when `SetProposerState(h, z)` with the fresh value
`z` of `new(State)` is called on a state without an entry for `h`, the call
returns, and if `HasProposerState(h, z)` is true afterwards it differs from
the answer before the call.  So for the phase value `z` the set-then-has
property and the reading of an entry written with `z` as absent exclude each
other. -/
theorem fresh_phase_set_then_has (ops : StateOps σ)
    (scv : SigChainVoting σ SigChain ChainHash Err Txn Pool) (h : Uint256)
    (hnone : scv.pstate h = none) :
    ∃ s1, SetProposerState ops scv h ops.new = some s1 ∧
      (HasProposerState ops s1 h ops.new = true →
        HasProposerState ops s1 h ops.new ≠ HasProposerState ops scv h ops.new) := by
  obtain ⟨s1, hs⟩ := SetProposerState_returns ops scv h ops.new (by simp [hnone])
  refine ⟨s1, hs, fun ht => ?_⟩
  rw [ht]
  simp [HasProposerState, hnone]

end Lemmas

/-! ## Phase tracking -/

section PhaseTracking

variable {σ SigChain ChainHash Err Txn Pool : Type}

/-- C1: in every reachable state, for every hash `h` and phases `p`, `p2`,
`SetProposerState(h, p)` returns, `HasProposerState(h, p)` is true afterwards,
and it is still true after a following `SetProposerState(h, p2)`.  The two
facts about the `State` methods it rests on are stated as hypotheses:
`HasBit(p)` holds right after `SetBit(p)`, and `SetBit(p2)` keeps it. -/
theorem C1_proposer_state_set_then_has (ops : StateOps σ)
    (scv : SigChainVoting σ SigChain ChainHash Err Txn Pool) (h : Uint256) (p p2 : σ)
    (hset : ∀ v, ops.HasBit (ops.SetBit v p) p = true)
    (hkeep : ∀ v, ops.HasBit v p = true → ops.HasBit (ops.SetBit v p2) p = true)
    (hr : Reachable ops scv) :
    ∃ s1, SetProposerState ops scv h p = some s1 ∧ HasProposerState ops s1 h p = true ∧
      ∃ s2, SetProposerState ops s1 h p2 = some s2 ∧ HasProposerState ops s2 h p = true := by
  have hn := NoNil_of_reachable ops scv hr
  obtain ⟨s1, h1⟩ := SetProposerState_returns ops scv h p (hn.1 h)
  obtain ⟨v, _, e1⟩ := SetProposerState_spec ops scv s1 h p h1
  have hp1 : s1.pstate h = some (some (ops.SetBit v p)) := by rw [e1]; simp
  have hn1 : s1.pstate h ≠ some none := by rw [hp1]; simp
  obtain ⟨s2, h2⟩ := SetProposerState_returns ops s1 h p2 hn1
  obtain ⟨v2, hv2, e2⟩ := SetProposerState_spec ops s1 s2 h p2 h2
  have hv : v2 = ops.SetBit v p := by
    rcases hv2 with ⟨hnone, _⟩ | hsome
    · rw [hp1] at hnone; cases hnone
    · rw [hp1] at hsome; simpa using hsome.symm
  have hp2 : s2.pstate h = some (some (ops.SetBit (ops.SetBit v p) p2)) := by
    rw [e2, hv]; simp
  refine ⟨s1, h1, ?_, s2, h2, ?_⟩
  · simp [HasProposerState, hp1, hset v]
  · simp [HasProposerState, hp2, hkeep _ (hset v)]

/-- C1 at the sample component with the bit-flag instance: hash `9`, phases
`1` and `2`. -/
theorem C1_proposer_state_set_then_has_witness :
    ∃ s1, SetProposerState bitOps sampleVoting 9 1 = some s1 ∧
      HasProposerState bitOps s1 9 1 = true ∧
      ∃ s2, SetProposerState bitOps s1 9 2 = some s2 ∧ HasProposerState bitOps s2 9 1 = true :=
  C1_proposer_state_set_then_has bitOps sampleVoting 9 1 2
    (fun v => bitOps_HasBit_SetBit v 1) (fun v hv => bitOps_HasBit_keep v 1 2 hv)
    sampleVoting_reachable

/-- C2: after any sequence of public calls on a freshly built component in
which `SetProposerState` was never called with hash `h`, the sequence has run
to its end, `HasProposerState(h, p)` is false for every phase `p`, and after
that call the proposer map still has no entry for `h`. -/
theorem C2_unset_hash_has_no_proposer_state (ops : StateOps σ)
    (newPool : Int → Pool) (ledgerHeight : Nat) (totalWeight : Int)
    (porServer : PorServer SigChain ChainHash Err) (txnCollector : TxnCollector Txn)
    (trace : List (Op σ Txn)) (h : Uint256) (p : σ)
    (hnever : ∀ s, Op.SetProposerState h s ∉ trace) :
    ∃ scv : SigChainVoting σ SigChain ChainHash Err Txn Pool,
      run ops trace (NewSigChainVoting newPool ledgerHeight totalWeight porServer txnCollector)
        = some scv ∧
      HasProposerState ops scv h p = false ∧
      ∃ s1, step ops (Op.HasProposerState h p) scv = some s1 ∧ s1.pstate h = none := by
  obtain ⟨scv, hrun⟩ := run_returns ops trace
    (NewSigChainVoting newPool ledgerHeight totalWeight porServer txnCollector :
      SigChainVoting σ SigChain ChainHash Err Txn Pool)
    (NoNil_new newPool ledgerHeight totalWeight porServer txnCollector)
  have hp : scv.pstate h = none := by
    rw [run_pstate_other ops h trace _ scv hnever hrun]
    rfl
  exact ⟨scv, hrun, by simp [HasProposerState, hp], scv, rfl, hp⟩

/-- C2 at the sample collaborators: hash `9` is set, a voter state and the
height are written, and hash `10` is queried. -/
theorem C2_unset_hash_has_no_proposer_state_witness :
    ∃ scv : SigChainVoting Nat Nat Nat Nat Nat Int,
      run bitOps
        [Op.SetProposerState 9 1, Op.SetVoterState 3 10 1, Op.HasProposerState 10 1,
          Op.SetVotingHeight 50]
        (NewSigChainVoting (fun totalWeight => totalWeight) 40 3 samplePor sampleTxns)
        = some scv ∧
      HasProposerState bitOps scv 10 1 = false ∧
      ∃ s1, step bitOps (Op.HasProposerState 10 1) scv = some s1 ∧ s1.pstate 10 = none :=
  C2_unset_hash_has_no_proposer_state bitOps (fun totalWeight => totalWeight) 40 3 samplePor
    sampleTxns _ 10 1 (by simp)

/-- C3: for voter ids `v1 ≠ v2`, a hash `h` and a phase `p`, whenever
`SetVoterState(v1, h, p)` returns, `HasVoterState(v2, h, q)` answers for every
phase `q` what it answered before; and in a reachable state the call does
return. -/
theorem C3_voter_state_isolated_per_voter (ops : StateOps σ)
    (scv : SigChainVoting σ SigChain ChainHash Err Txn Pool) (v1 v2 : Nat) (h : Uint256)
    (p : σ) (hne : v1 ≠ v2) :
    (∀ s1, SetVoterState ops scv v1 h p = some s1 →
      ∀ q, HasVoterState ops s1 v2 h q = HasVoterState ops scv v2 h q) ∧
    (Reachable ops scv → ∃ s1, SetVoterState ops scv v1 h p = some s1) := by
  refine ⟨fun s1 hs q => ?_, fun hr => ?_⟩
  · obtain ⟨inner, v, _, _, rfl⟩ := SetVoterState_spec ops scv s1 v1 h p hs
    simp [HasVoterState, Function.update_noteq (Ne.symm hne)]
  · exact SetVoterState_returns ops scv v1 h p (NoNil_of_reachable ops scv hr)

/-- C3 at the sample component: voters `1` and `2`, hash `9`, phase `1`. -/
theorem C3_voter_state_isolated_per_voter_witness :
    (∀ s1, SetVoterState bitOps sampleVoting 1 9 1 = some s1 →
      ∀ q, HasVoterState bitOps s1 2 9 q = HasVoterState bitOps sampleVoting 2 9 q) ∧
    (Reachable bitOps sampleVoting → ∃ s1, SetVoterState bitOps sampleVoting 1 9 1 = some s1) :=
  C3_voter_state_isolated_per_voter bitOps sampleVoting 1 2 9 1 (by decide)

/-- C4: for every voter id `v`, hash `h` and phase `p`, `HasVoterState(v, h, p)`
is true after a returning `SetVoterState(v, h, p)`, and the call returns in
every reachable state; `HasVoterState(v, h, q)`, a total function, is false
when `v` has no inner map and when the inner map of `v` has no entry for `h`.
The fact about the `State` methods it rests on is a hypothesis: `HasBit(p)`
holds right after `SetBit(p)`. -/
theorem C4_voter_state_two_level (ops : StateOps σ)
    (scv : SigChainVoting σ SigChain ChainHash Err Txn Pool) (v : Nat) (h : Uint256) (p : σ)
    (hset : ∀ x, ops.HasBit (ops.SetBit x p) p = true) :
    (∀ s1, SetVoterState ops scv v h p = some s1 → HasVoterState ops s1 v h p = true) ∧
    (Reachable ops scv → ∃ s1, SetVoterState ops scv v h p = some s1) ∧
    (scv.vstate v = none → ∀ q, HasVoterState ops scv v h q = false) ∧
    (∀ inner, scv.vstate v = some (some inner) → inner h = none →
      ∀ q, HasVoterState ops scv v h q = false) := by
  refine ⟨fun s1 hs => ?_, fun hr => ?_, fun hv q => ?_, fun inner hv hi q => ?_⟩
  · obtain ⟨inner, x, _, _, rfl⟩ := SetVoterState_spec ops scv s1 v h p hs
    simp [HasVoterState, hset x]
  · exact SetVoterState_returns ops scv v h p (NoNil_of_reachable ops scv hr)
  · simp [HasVoterState, hv]
  · simp [HasVoterState, hv, hi]

/-- C4 at the sample component: voter `3`, hash `9`, phase `4`. -/
theorem C4_voter_state_two_level_witness :
    (∀ s1, SetVoterState bitOps sampleVoting 3 9 4 = some s1 →
      HasVoterState bitOps s1 3 9 4 = true) ∧
    (Reachable bitOps sampleVoting → ∃ s1, SetVoterState bitOps sampleVoting 3 9 4 = some s1) ∧
    (sampleVoting.vstate 3 = none → ∀ q, HasVoterState bitOps sampleVoting 3 9 q = false) ∧
    (∀ inner, sampleVoting.vstate 3 = some (some inner) → inner 9 = none →
      ∀ q, HasVoterState bitOps sampleVoting 3 9 q = false) :=
  C4_voter_state_two_level bitOps sampleVoting 3 9 4 (fun x => bitOps_HasBit_SetBit x 4)

end PhaseTracking

/-! ## Content selection -/

section ContentSelection

variable {σ SigChain ChainHash Err Txn Pool : Type}

/-- C5: `GetBestVotingContent(H)` returns no content and the error of
`GetMinSigChain(H)` when that error is not nil; when the error is nil and
`IsSigChainExist` gives a transaction hash for the hash of the returned chain
at height `H`, it returns, with a nil error, what `GetTransaction` gives for
that transaction hash. -/
theorem C5_best_content_found_or_error
    (scv : SigChainVoting σ SigChain ChainHash Err Txn Pool) (H : Nat) :
    (∀ c e, scv.porServer.GetMinSigChain H = (c, some e) →
      GetBestVotingContent scv H = some (none, some e)) ∧
    (∀ c t b, scv.porServer.GetMinSigChain H = (c, none) →
      scv.porServer.IsSigChainExist (scv.porServer.Hash c) H = (some t, b) →
      GetBestVotingContent scv H = some (scv.txnCollector.GetTransaction t, none)) := by
  constructor
  · intro c e hc
    simp [GetBestVotingContent, hc]
  · intro c t b hc ht
    simp [GetBestVotingContent, hc, ht]

/-- C5 at the sample component: height `7` has no chain, height `5` resolves
to transaction `1100`. -/
theorem C5_best_content_found_or_error_witness :
    GetBestVotingContent sampleVoting 7 = some (none, some 404) ∧
    GetBestVotingContent sampleVoting 5 = some (some 1100, none) :=
  ⟨(C5_best_content_found_or_error sampleVoting 7).1 0 404 rfl,
   (C5_best_content_found_or_error sampleVoting 5).2 7 11 true rfl rfl⟩

/-- Both content lookups dereference the transaction hash: when
`IsSigChainExist` gives a nil hash for the chain found, the call panics. -/
theorem content_lookup_nil_hash (scv : SigChainVoting σ SigChain ChainHash Err Txn Pool)
    (hash : Uint256) (H : Nat) :
    (∀ c b, scv.porServer.GetMinSigChain H = (c, none) →
      scv.porServer.IsSigChainExist (scv.porServer.Hash c) H = (none, b) →
      GetBestVotingContent scv H = none) ∧
    (∀ c b, scv.porServer.GetSigChain H hash = (c, none) →
      scv.porServer.IsSigChainExist (scv.porServer.Hash c) H = (none, b) →
      GetVotingContent scv hash H = none) := by
  constructor
  · intro c b hc ht
    simp [GetBestVotingContent, hc, ht]
  · intro c b hc ht
    simp [GetVotingContent, hc, ht]

/-- Both content lookups return a nil reference and a nil error when the
transaction hash resolves and the content store has nothing under it. -/
theorem content_lookup_no_body (scv : SigChainVoting σ SigChain ChainHash Err Txn Pool)
    (hash : Uint256) (H : Nat) :
    (∀ c t b, scv.porServer.GetMinSigChain H = (c, none) →
      scv.porServer.IsSigChainExist (scv.porServer.Hash c) H = (some t, b) →
      scv.txnCollector.GetTransaction t = none →
      GetBestVotingContent scv H = some (none, none)) ∧
    (∀ c t b, scv.porServer.GetSigChain H hash = (c, none) →
      scv.porServer.IsSigChainExist (scv.porServer.Hash c) H = (some t, b) →
      scv.txnCollector.GetTransaction t = none →
      GetVotingContent scv hash H = some (none, none)) := by
  constructor
  · intro c t b hc ht hb
    simp [GetBestVotingContent, hc, ht, hb]
  · intro c t b hc ht hb
    simp [GetVotingContent, hc, ht, hb]

/-- C6: at the sample component the minimal chain of height `6` exists (handle
`8`, found under hash `10`) and `IsSigChainExist` gives no transaction hash for
it: `GetBestVotingContent(6)` and `GetVotingContent(10, 6)` panic on the nil
dereference instead of returning nil content with a nil error.  At height `8`,
where the hash resolves and the store has no body, both return nil content
with a nil error. -/
theorem C6_unresolved_hash_panics :
    samplePor.GetMinSigChain 6 = (8, none) ∧
    samplePor.GetSigChain 6 10 = (8, none) ∧
    samplePor.IsSigChainExist (samplePor.Hash 8) 6 = (none, false) ∧
    GetBestVotingContent sampleVoting 6 = none ∧
    GetVotingContent sampleVoting 10 6 = none ∧
    GetBestVotingContent sampleVoting 8 = some (none, none) ∧
    GetVotingContent sampleVoting 14 8 = some (none, none) := by
  decide

/-- C7: `GetVotingContent(h, H)` returns no content and the error of
`GetSigChain(H, h)` when that error is not nil; and whenever `GetSigChain(H, h)`
and `GetMinSigChain(H)` return the same chain with a nil error,
`GetVotingContent(h, H)` and `GetBestVotingContent(H)` have the same outcome
(the same content and error, or both the panic of a nil transaction hash). -/
theorem C7_content_by_hash_same_pipeline
    (scv : SigChainVoting σ SigChain ChainHash Err Txn Pool) (h : Uint256) (H : Nat) :
    (∀ c e, scv.porServer.GetSigChain H h = (c, some e) →
      GetVotingContent scv h H = some (none, some e)) ∧
    (∀ c, scv.porServer.GetSigChain H h = (c, none) →
      scv.porServer.GetMinSigChain H = (c, none) →
      GetVotingContent scv h H = GetBestVotingContent scv H) ∧
    (∀ c t b, scv.porServer.GetSigChain H h = (c, none) →
      scv.porServer.IsSigChainExist (scv.porServer.Hash c) H = (some t, b) →
      GetVotingContent scv h H = some (scv.txnCollector.GetTransaction t, none)) := by
  refine ⟨fun c e hc => ?_, fun c hc hm => ?_, fun c t b hc ht => ?_⟩
  · simp [GetVotingContent, hc]
  · simp [GetVotingContent, GetBestVotingContent, hc, hm]
  · simp [GetVotingContent, hc, ht]

/-- C7 at the sample component: no chain under hash `9` at height `7`; at
height `5` hash `9` names the minimal chain and both lookups give transaction
`1100`. -/
theorem C7_content_by_hash_same_pipeline_witness :
    GetVotingContent sampleVoting 9 7 = some (none, some 404) ∧
    GetVotingContent sampleVoting 9 5 = GetBestVotingContent sampleVoting 5 ∧
    GetVotingContent sampleVoting 9 5 = some (some 1100, none) :=
  ⟨(C7_content_by_hash_same_pipeline sampleVoting 9 7).1 0 404 rfl,
   (C7_content_by_hash_same_pipeline sampleVoting 9 5).2.1 7 rfl rfl,
   (C7_content_by_hash_same_pipeline sampleVoting 9 5).2.2 7 11 true rfl rfl⟩

end ContentSelection

/-! ## Voting height and confirming hash -/

section Scalars

variable {σ SigChain ChainHash Err Txn Pool : Type}

/-- C8: right after `NewSigChainVoting`, `GetVotingHeight()` is the `uint32`
sum `ledgerHeight + 2` of the ledger height read by the constructor; after
`UpdateVotingHeight()` it is the `uint32` sum for the ledger height read by
that call, whatever was stored before, also a height written by
`SetVotingHeight`.  The `uint32` sum is the number `ledgerHeight + 2` whenever
that is below `2 ^ 32`. -/
theorem C8_voting_height_is_ledger_plus_two
    (newPool : Int → Pool) (ledgerHeight : Nat) (totalWeight : Int)
    (porServer : PorServer SigChain ChainHash Err) (txnCollector : TxnCollector Txn)
    (scv : SigChainVoting σ SigChain ChainHash Err Txn Pool) (ledgerHeight2 x : Nat) :
    GetVotingHeight (NewSigChainVoting newPool ledgerHeight totalWeight porServer txnCollector :
      SigChainVoting σ SigChain ChainHash Err Txn Pool) = (ledgerHeight + 2) % 2 ^ 32 ∧
    GetVotingHeight (UpdateVotingHeight scv ledgerHeight2) = (ledgerHeight2 + 2) % 2 ^ 32 ∧
    GetVotingHeight (UpdateVotingHeight (SetVotingHeight scv x) ledgerHeight2)
      = (ledgerHeight2 + 2) % 2 ^ 32 ∧
    (ledgerHeight + 2 < 2 ^ 32 →
      GetVotingHeight (NewSigChainVoting newPool ledgerHeight totalWeight porServer
        txnCollector : SigChainVoting σ SigChain ChainHash Err Txn Pool) = ledgerHeight + 2) ∧
    (ledgerHeight2 + 2 < 2 ^ 32 →
      GetVotingHeight (UpdateVotingHeight (SetVotingHeight scv x) ledgerHeight2)
        = ledgerHeight2 + 2) := by
  refine ⟨rfl, rfl, rfl, fun hlt => ?_, fun hlt => ?_⟩
  · exact Nat.mod_eq_of_lt hlt
  · exact Nat.mod_eq_of_lt hlt

/-- C8 at the sample component, built at ledger height `40`; the height is
overwritten with `7` and then updated at ledger height `41`. -/
theorem C8_voting_height_is_ledger_plus_two_witness :
    GetVotingHeight sampleVoting = 42 ∧
    GetVotingHeight (UpdateVotingHeight (SetVotingHeight sampleVoting 7) 41) = 43 :=
  ⟨(C8_voting_height_is_ledger_plus_two (fun totalWeight => totalWeight) 40 3 samplePor
      sampleTxns sampleVoting 41 7).2.2.2.1 (by decide),
   (C8_voting_height_is_ledger_plus_two (fun totalWeight => totalWeight) 40 3 samplePor
      sampleTxns sampleVoting 41 7).2.2.2.2 (by decide)⟩

/-- C9 as stated fails: at the ledger height `4294967295`, a `uint32` value,
the constructor stores the voting height `1`, and at the ledger height
`4294967294` `UpdateVotingHeight` stores `0`; neither is above the ledger
height. -/
theorem C9_height_wraps_counterexample :
    4294967295 < 2 ^ 32 ∧
    GetVotingHeight (NewSigChainVoting (fun totalWeight => totalWeight) 4294967295 3 samplePor
      sampleTxns : SigChainVoting Nat Nat Nat Nat Nat Int) = 1 ∧
    ¬ (4294967295 < GetVotingHeight (NewSigChainVoting (fun totalWeight => totalWeight)
      4294967295 3 samplePor sampleTxns : SigChainVoting Nat Nat Nat Nat Nat Int)) ∧
    GetVotingHeight (UpdateVotingHeight sampleVoting 4294967294) = 0 ∧
    ¬ (4294967294 < GetVotingHeight (UpdateVotingHeight sampleVoting 4294967294)) := by
  decide

/-- C9, amended: for a `uint32` ledger height, the voting height stored by
`NewSigChainVoting` and by `UpdateVotingHeight` is strictly greater than the
ledger height read at that moment exactly when `ledgerHeight + 2` does not
overflow, that is for every ledger height up to `2 ^ 32 - 3`. -/
theorem C9_height_above_ledger_unless_overflow
    (newPool : Int → Pool) (ledgerHeight : Nat) (totalWeight : Int)
    (porServer : PorServer SigChain ChainHash Err) (txnCollector : TxnCollector Txn)
    (scv : SigChainVoting σ SigChain ChainHash Err Txn Pool)
    (hL : ledgerHeight < 2 ^ 32) :
    (ledgerHeight < GetVotingHeight (NewSigChainVoting newPool ledgerHeight totalWeight
        porServer txnCollector : SigChainVoting σ SigChain ChainHash Err Txn Pool)
      ↔ ledgerHeight + 2 < 2 ^ 32) ∧
    (ledgerHeight < GetVotingHeight (UpdateVotingHeight scv ledgerHeight)
      ↔ ledgerHeight + 2 < 2 ^ 32) := by
  have key : ledgerHeight < (ledgerHeight + 2) % 2 ^ 32 ↔ ledgerHeight + 2 < 2 ^ 32 := by
    constructor
    · intro hlt
      by_contra hge
      have hmod : (ledgerHeight + 2) % 2 ^ 32 = ledgerHeight + 2 - 2 ^ 32 := by
        rw [Nat.mod_eq_sub_mod (by omega)]
        exact Nat.mod_eq_of_lt (by omega)
      omega
    · intro hlt
      rw [Nat.mod_eq_of_lt hlt]
      omega
  exact ⟨key, key⟩

/-- C9, amended, at the ledger height `40` of the sample component. -/
theorem C9_height_above_ledger_unless_overflow_witness :
    (40 < GetVotingHeight sampleVoting ↔ 40 + 2 < 2 ^ 32) ∧
    (40 < GetVotingHeight (UpdateVotingHeight sampleVoting 40) ↔ 40 + 2 < 2 ^ 32) :=
  C9_height_above_ledger_unless_overflow (fun totalWeight => totalWeight) 40 3 samplePor
    sampleTxns sampleVoting (by decide)

/-- C10: for every state and every hash `x`, the zero hash included,
`GetConfirmingHash()` after `SetConfirmingHash(x)` returns `x`; on a freshly
built component `GetConfirmingHash()` returns the zero hash. -/
theorem C10_confirming_hash_roundtrip
    (newPool : Int → Pool) (ledgerHeight : Nat) (totalWeight : Int)
    (porServer : PorServer SigChain ChainHash Err) (txnCollector : TxnCollector Txn)
    (scv : SigChainVoting σ SigChain ChainHash Err Txn Pool) (x : Uint256) :
    GetConfirmingHash (SetConfirmingHash scv x) = x ∧
    GetConfirmingHash (SetConfirmingHash scv 0) = 0 ∧
    GetConfirmingHash (NewSigChainVoting newPool ledgerHeight totalWeight porServer
      txnCollector : SigChainVoting σ SigChain ChainHash Err Txn Pool) = 0 :=
  ⟨rfl, rfl, rfl⟩

end Scalars

/-! ## Existence test and the placeholder lookup -/

section Lookups

variable {σ SigChain ChainHash Err Txn Pool : Type}

/-- C11: for every hash `h` and heights `H1`, `H2`, `Exist(h, H1)` and
`Exist(h, H2)` are equal, and each is true exactly when `GetTransaction(h)` of
the content store returns a transaction. -/
theorem C11_exist_ignores_height
    (scv : SigChainVoting σ SigChain ChainHash Err Txn Pool) (h : Uint256) (H1 H2 : Nat) :
    Exist scv h H1 = Exist scv h H2 ∧
    (Exist scv h H1 = true ↔ ∃ txn, scv.txnCollector.GetTransaction h = some txn) ∧
    (Exist scv h H2 = true ↔ ∃ txn, scv.txnCollector.GetTransaction h = some txn) := by
  unfold Exist
  rcases scv.txnCollector.GetTransaction h with _ | txn <;> simp

/-- C11 at the sample component: hash `11` has a transaction, hash `12` has
none, at the heights `5` and `600`. -/
theorem C11_exist_ignores_height_witness :
    Exist sampleVoting 11 5 = Exist sampleVoting 11 600 ∧ Exist sampleVoting 11 5 = true ∧
    Exist sampleVoting 12 5 = Exist sampleVoting 12 600 ∧ Exist sampleVoting 12 5 = false :=
  ⟨(C11_exist_ignores_height sampleVoting 11 5 600).1, by decide,
   (C11_exist_ignores_height sampleVoting 12 5 600).1, by decide⟩

/-- C15: for every state and every height, `GetWorseVotingContent(height)`
returns nil content and a nil error. -/
theorem C15_worse_content_is_nil
    (scv : SigChainVoting σ SigChain ChainHash Err Txn Pool) (height : Nat) :
    GetWorseVotingContent scv height = (none, none) :=
  rfl

end Lookups

/-! ## Invariant, isolation and independence of the state -/

section Frames

variable {σ SigChain ChainHash Err Txn Pool : Type}

/-- C17: in every reachable state no entry of the proposer map is a nil
pointer, no voter has a nil inner map, and no entry of a voter inner map is a
nil pointer; so `SetProposerState` and `SetVoterState` return for every
argument (no dereference faults), and the entry the two queries find is never
nil (their `v == nil` branch is not taken). -/
theorem C17_reachable_states_store_no_nil (ops : StateOps σ)
    (scv : SigChainVoting σ SigChain ChainHash Err Txn Pool) (hr : Reachable ops scv) :
    (∀ h, scv.pstate h ≠ some none) ∧
    (∀ id, scv.vstate id ≠ some none) ∧
    (∀ id inner, scv.vstate id = some (some inner) → ∀ h, inner h ≠ some none) ∧
    (∀ h s, ∃ s1, SetProposerState ops scv h s = some s1) ∧
    (∀ id h s, ∃ s1, SetVoterState ops scv id h s = some s1) ∧
    (∀ id h, voterEntry scv id h ≠ some none) := by
  have hn := NoNil_of_reachable ops scv hr
  refine ⟨hn.1, hn.2.1, hn.2.2, fun h s => SetProposerState_returns ops scv h s (hn.1 h),
    fun id h s => SetVoterState_returns ops scv id h s hn, fun id h => ?_⟩
  unfold voterEntry
  rcases hv : scv.vstate id with _ | _ | inner
  · simp
  · simp
  · simpa using hn.2.2 id inner hv h

/-- C17 at a state reached from the sample component by four calls. -/
theorem C17_reachable_states_store_no_nil_witness :
    ∃ scv : SigChainVoting Nat Nat Nat Nat Nat Int,
      run bitOps
        [Op.SetProposerState 9 1, Op.SetVoterState 3 9 2, Op.SetVoterState 3 10 1,
          Op.UpdateVotingHeight 41] sampleVoting = some scv ∧
      (∀ h, scv.pstate h ≠ some none) ∧
      (∀ id, scv.vstate id ≠ some none) ∧
      (∀ id inner, scv.vstate id = some (some inner) → ∀ h, inner h ≠ some none) ∧
      (∀ h s, ∃ s1, SetProposerState bitOps scv h s = some s1) ∧
      (∀ id h s, ∃ s1, SetVoterState bitOps scv id h s = some s1) ∧
      (∀ id h, voterEntry scv id h ≠ some none) := by
  obtain ⟨scv, hrun⟩ := run_returns bitOps
    [Op.SetProposerState 9 1, Op.SetVoterState 3 9 2, Op.SetVoterState 3 10 1,
      Op.UpdateVotingHeight 41] sampleVoting
    (NoNil_of_reachable bitOps sampleVoting sampleVoting_reachable)
  exact ⟨scv, hrun, C17_reachable_states_store_no_nil bitOps scv
    ⟨fun totalWeight => totalWeight, 40, 3, samplePor, sampleTxns, _, hrun⟩⟩

/-- C19: for hashes `h ≠ h2`, a returning `SetProposerState(h, p)` leaves
`HasProposerState(h2, q)` as it was for every `q`, and a returning
`SetVoterState(v, h, p)` leaves `HasVoterState(v, h2, q)` as it was for every
`q`; when `v` has no inner map the call returns, creates it, and the answer
for `h2` is still the one from before.  In a reachable state both calls
return. -/
theorem C19_state_isolated_per_hash (ops : StateOps σ)
    (scv : SigChainVoting σ SigChain ChainHash Err Txn Pool) (v : Nat) (h h2 : Uint256)
    (p : σ) (hne : h ≠ h2) :
    (∀ s1, SetProposerState ops scv h p = some s1 →
      ∀ q, HasProposerState ops s1 h2 q = HasProposerState ops scv h2 q) ∧
    (∀ s1, SetVoterState ops scv v h p = some s1 →
      ∀ q, HasVoterState ops s1 v h2 q = HasVoterState ops scv v h2 q) ∧
    (scv.vstate v = none → ∃ s1, SetVoterState ops scv v h p = some s1 ∧
      s1.vstate v ≠ none ∧
      ∀ q, HasVoterState ops s1 v h2 q = HasVoterState ops scv v h2 q) ∧
    (Reachable ops scv → (∃ s1, SetProposerState ops scv h p = some s1) ∧
      ∃ s1, SetVoterState ops scv v h p = some s1) := by
  have hne2 : ¬ h2 = h := fun he => hne he.symm
  have hvoter : ∀ s1, SetVoterState ops scv v h p = some s1 →
      ∀ q, HasVoterState ops s1 v h2 q = HasVoterState ops scv v h2 q := by
    intro s1 hs q
    rw [HasVoterState_eq_entryHas, HasVoterState_eq_entryHas,
      SetVoterState_voterEntry ops scv s1 v h p hs v h2]
    simp [hne2]
  refine ⟨fun s1 hs q => ?_, hvoter, fun hv => ?_, fun hr => ?_⟩
  · rw [HasProposerState_eq_entryHas, HasProposerState_eq_entryHas,
      SetProposerState_pstate ops scv s1 h p hs h2]
    simp [hne2]
  · have hret : ∃ s1, SetVoterState ops scv v h p = some s1 := by
      unfold SetVoterState
      simp [hv]
    obtain ⟨s1, hs⟩ := hret
    refine ⟨s1, hs, ?_, hvoter s1 hs⟩
    obtain ⟨inner, x, _, _, rfl⟩ := SetVoterState_spec ops scv s1 v h p hs
    simp
  · have hn := NoNil_of_reachable ops scv hr
    exact ⟨SetProposerState_returns ops scv h p (hn.1 h), SetVoterState_returns ops scv v h p hn⟩

/-- C19 at the sample component: voter `3`, hashes `9` and `10`, phase `1`. -/
theorem C19_state_isolated_per_hash_witness :
    (∀ s1, SetProposerState bitOps sampleVoting 9 1 = some s1 →
      ∀ q, HasProposerState bitOps s1 10 q = HasProposerState bitOps sampleVoting 10 q) ∧
    (∀ s1, SetVoterState bitOps sampleVoting 3 9 1 = some s1 →
      ∀ q, HasVoterState bitOps s1 3 10 q = HasVoterState bitOps sampleVoting 3 10 q) ∧
    (sampleVoting.vstate 3 = none → ∃ s1, SetVoterState bitOps sampleVoting 3 9 1 = some s1 ∧
      s1.vstate 3 ≠ none ∧
      ∀ q, HasVoterState bitOps s1 3 10 q = HasVoterState bitOps sampleVoting 3 10 q) ∧
    (Reachable bitOps sampleVoting →
      (∃ s1, SetProposerState bitOps sampleVoting 9 1 = some s1) ∧
      ∃ s1, SetVoterState bitOps sampleVoting 3 9 1 = some s1) :=
  C19_state_isolated_per_hash bitOps sampleVoting 3 9 10 1 (by decide)

/-- C20: a returning `SetProposerState` leaves the voter map, the height and
the confirming hash as they were; a returning `SetVoterState` leaves the
proposer map, the height and the confirming hash as they were;
`SetVotingHeight` and `UpdateVotingHeight` leave every field but the height,
`SetConfirmingHash` every field but the confirming hash; and after
`GetBestVotingContent`, `GetVotingContent`, `GetWorseVotingContent`, `Exist`,
`Preparing`, `VotingType`, `GetVotingPool` and `DumpState` the struct is the
one from before the call.  The collaborator fields are left by all of them. -/
theorem C20_state_groups_independent (ops : StateOps σ)
    (scv : SigChainVoting σ SigChain ChainHash Err Txn Pool) (v : Nat) (h : Uint256) (p : σ)
    (x ledgerHeight H : Nat) (content : Option Txn) (desc : String) (verbose : Bool) :
    (∀ s1, SetProposerState ops scv h p = some s1 →
      s1.vstate = scv.vstate ∧ s1.height = scv.height ∧
      s1.confirmingHash = scv.confirmingHash ∧ s1.porServer = scv.porServer ∧
      s1.pool = scv.pool ∧ s1.txnCollector = scv.txnCollector) ∧
    (∀ s1, SetVoterState ops scv v h p = some s1 →
      s1.pstate = scv.pstate ∧ s1.height = scv.height ∧
      s1.confirmingHash = scv.confirmingHash ∧ s1.porServer = scv.porServer ∧
      s1.pool = scv.pool ∧ s1.txnCollector = scv.txnCollector) ∧
    ((SetVotingHeight scv x).pstate = scv.pstate ∧ (SetVotingHeight scv x).vstate = scv.vstate ∧
      (SetVotingHeight scv x).confirmingHash = scv.confirmingHash ∧
      (SetVotingHeight scv x).porServer = scv.porServer ∧
      (SetVotingHeight scv x).pool = scv.pool ∧
      (SetVotingHeight scv x).txnCollector = scv.txnCollector) ∧
    ((UpdateVotingHeight scv ledgerHeight).pstate = scv.pstate ∧
      (UpdateVotingHeight scv ledgerHeight).vstate = scv.vstate ∧
      (UpdateVotingHeight scv ledgerHeight).confirmingHash = scv.confirmingHash ∧
      (UpdateVotingHeight scv ledgerHeight).porServer = scv.porServer ∧
      (UpdateVotingHeight scv ledgerHeight).pool = scv.pool ∧
      (UpdateVotingHeight scv ledgerHeight).txnCollector = scv.txnCollector) ∧
    ((SetConfirmingHash scv h).pstate = scv.pstate ∧
      (SetConfirmingHash scv h).vstate = scv.vstate ∧
      (SetConfirmingHash scv h).height = scv.height ∧
      (SetConfirmingHash scv h).porServer = scv.porServer ∧
      (SetConfirmingHash scv h).pool = scv.pool ∧
      (SetConfirmingHash scv h).txnCollector = scv.txnCollector) ∧
    step ops (Op.GetBestVotingContent H : Op σ Txn) scv = some scv ∧
    step ops (Op.GetVotingContent h H : Op σ Txn) scv = some scv ∧
    step ops (Op.GetWorseVotingContent H : Op σ Txn) scv = some scv ∧
    step ops (Op.Exist h H : Op σ Txn) scv = some scv ∧
    step ops (Op.Preparing content : Op σ Txn) scv = some scv ∧
    step ops (Op.VotingType : Op σ Txn) scv = some scv ∧
    step ops (Op.GetVotingPool : Op σ Txn) scv = some scv ∧
    step ops (Op.DumpState h desc verbose : Op σ Txn) scv = some scv :=
  ⟨fun s1 hs => SetProposerState_frame ops scv s1 h p hs,
   fun s1 hs => SetVoterState_frame ops scv s1 v h p hs,
   ⟨rfl, rfl, rfl, rfl, rfl, rfl⟩, ⟨rfl, rfl, rfl, rfl, rfl, rfl⟩, ⟨rfl, rfl, rfl, rfl, rfl, rfl⟩,
   rfl, rfl, rfl, rfl, rfl, rfl, rfl, rfl⟩

end Frames

/-! ## Idempotence and monotonicity of the phase sets -/

section Monotone

variable {σ SigChain ChainHash Err Txn Pool : Type}

/-- C12: a `SetProposerState` or `SetVoterState` call repeated right after
itself returns the state the first call left, and setting a phase that
`HasProposerState` (`HasVoterState`) already reports returns and changes no
answer of `HasProposerState` or `HasVoterState` for any key and phase.  The
two facts about the `State` methods it rests on are hypotheses: `SetBit(p)`
twice is `SetBit(p)` once, and `SetBit(p)` on a value with `HasBit(p)`
changes no `HasBit` answer. -/
theorem C12_set_is_idempotent (ops : StateOps σ)
    (scv : SigChainVoting σ SigChain ChainHash Err Txn Pool) (v : Nat) (h : Uint256) (p : σ)
    (hidem : ∀ x, ops.SetBit (ops.SetBit x p) p = ops.SetBit x p)
    (hpresent : ∀ x q, ops.HasBit x p = true →
      ops.HasBit (ops.SetBit x p) q = ops.HasBit x q) :
    (∀ s1, SetProposerState ops scv h p = some s1 → SetProposerState ops s1 h p = some s1) ∧
    (∀ s1, SetVoterState ops scv v h p = some s1 → SetVoterState ops s1 v h p = some s1) ∧
    (HasProposerState ops scv h p = true →
      ∃ s1, SetProposerState ops scv h p = some s1 ∧
        (∀ h2 q, HasProposerState ops s1 h2 q = HasProposerState ops scv h2 q) ∧
        (∀ v2 h2 q, HasVoterState ops s1 v2 h2 q = HasVoterState ops scv v2 h2 q)) ∧
    (HasVoterState ops scv v h p = true →
      ∃ s1, SetVoterState ops scv v h p = some s1 ∧
        (∀ h2 q, HasProposerState ops s1 h2 q = HasProposerState ops scv h2 q) ∧
        (∀ v2 h2 q, HasVoterState ops s1 v2 h2 q = HasVoterState ops scv v2 h2 q)) := by
  refine ⟨fun s1 hs => ?_, fun s1 hs => ?_, fun hp => ?_, fun hp => ?_⟩
  · obtain ⟨x, _, rfl⟩ := SetProposerState_spec ops scv s1 h p hs
    simp [SetProposerState, hidem x]
  · obtain ⟨inner, x, _, _, rfl⟩ := SetVoterState_spec ops scv s1 v h p hs
    simp [SetVoterState, hidem x]
  · rw [HasProposerState_eq_entryHas] at hp
    rcases he : scv.pstate h with _ | _ | x
    · simp [he, entryHas] at hp
    · simp [he, entryHas] at hp
    · have hx : ops.HasBit x p = true := by simpa [he, entryHas] using hp
      obtain ⟨s1, hs⟩ := SetProposerState_returns ops scv h p (by simp [he])
      refine ⟨s1, hs, fun h2 q => ?_, fun v2 h2 q => ?_⟩
      · rw [HasProposerState_eq_entryHas, HasProposerState_eq_entryHas,
          SetProposerState_pstate ops scv s1 h p hs h2]
        by_cases hh : h2 = h
        · subst hh
          simp [he, entryHas, entryValue, hpresent x q hx]
        · simp [hh]
      · rw [HasVoterState_eq_entryHas, HasVoterState_eq_entryHas,
          SetProposerState_voterEntry ops scv s1 h p hs v2 h2]
  · rw [HasVoterState_eq_entryHas] at hp
    rcases he : voterEntry scv v h with _ | _ | x
    · simp [he, entryHas] at hp
    · simp [he, entryHas] at hp
    · have hx : ops.HasBit x p = true := by simpa [he, entryHas] using hp
      have hret : ∃ s1, SetVoterState ops scv v h p = some s1 := by
        unfold voterEntry at he
        unfold SetVoterState
        rcases hv : scv.vstate v with _ | _ | inner
        · simp [hv] at he
        · simp [hv] at he
        · simp only [hv] at he
          simp [hv, he]
      obtain ⟨s1, hs⟩ := hret
      refine ⟨s1, hs, fun h2 q => ?_, fun v2 h2 q => ?_⟩
      · rw [HasProposerState_eq_entryHas, HasProposerState_eq_entryHas,
          (SetVoterState_frame ops scv s1 v h p hs).1]
      · rw [HasVoterState_eq_entryHas, HasVoterState_eq_entryHas,
          SetVoterState_voterEntry ops scv s1 v h p hs v2 h2]
        by_cases hh : v2 = v ∧ h2 = h
        · obtain ⟨rfl, rfl⟩ := hh
          simp [he, entryHas, entryValue, hpresent x q hx]
        · simp [hh]

/-- C12 at the sample component with the bit-flag instance: voter `3`, hash
`9`, phase `2`. -/
theorem C12_set_is_idempotent_witness :
    (∀ s1, SetProposerState bitOps sampleVoting 9 2 = some s1 →
      SetProposerState bitOps s1 9 2 = some s1) ∧
    (∀ s1, SetVoterState bitOps sampleVoting 3 9 2 = some s1 →
      SetVoterState bitOps s1 3 9 2 = some s1) ∧
    (HasProposerState bitOps sampleVoting 9 2 = true →
      ∃ s1, SetProposerState bitOps sampleVoting 9 2 = some s1 ∧
        (∀ h2 q, HasProposerState bitOps s1 h2 q = HasProposerState bitOps sampleVoting h2 q) ∧
        (∀ v2 h2 q, HasVoterState bitOps s1 v2 h2 q = HasVoterState bitOps sampleVoting v2 h2 q)) ∧
    (HasVoterState bitOps sampleVoting 3 9 2 = true →
      ∃ s1, SetVoterState bitOps sampleVoting 3 9 2 = some s1 ∧
        (∀ h2 q, HasProposerState bitOps s1 h2 q = HasProposerState bitOps sampleVoting h2 q) ∧
        (∀ v2 h2 q, HasVoterState bitOps s1 v2 h2 q = HasVoterState bitOps sampleVoting v2 h2 q)) :=
  C12_set_is_idempotent bitOps sampleVoting 3 9 2 (fun x => bitOps_SetBit_idem x 2)
    (fun x q hx => bitOps_SetBit_present x 2 q hx)

/-- C13: for every public call and every state, if `HasProposerState(h, p)`
(respectively `HasVoterState(v, h, p)`) is true before the call it is true
after it, and so it is after any sequence of calls.  The fact about the
`State` methods it rests on is a hypothesis: `SetBit` of any bits keeps
`HasBit(p)`. -/
theorem C13_phases_are_never_cleared (ops : StateOps σ) (v : Nat) (h : Uint256) (p : σ)
    (hkeep : ∀ x c, ops.HasBit x p = true → ops.HasBit (ops.SetBit x c) p = true) :
    (∀ (op : Op σ Txn) (scv s1 : SigChainVoting σ SigChain ChainHash Err Txn Pool),
      step ops op scv = some s1 →
        (HasProposerState ops scv h p = true → HasProposerState ops s1 h p = true) ∧
        (HasVoterState ops scv v h p = true → HasVoterState ops s1 v h p = true)) ∧
    (∀ (trace : List (Op σ Txn)) (scv s1 : SigChainVoting σ SigChain ChainHash Err Txn Pool),
      run ops trace scv = some s1 →
        (HasProposerState ops scv h p = true → HasProposerState ops s1 h p = true) ∧
        (HasVoterState ops scv v h p = true → HasVoterState ops s1 v h p = true)) := by
  refine ⟨fun op scv s1 hs => step_keeps_phase ops h v p hkeep op scv s1 hs, fun trace => ?_⟩
  induction trace with
  | nil =>
    intro scv s1 hr
    simp only [run, Option.some.injEq] at hr
    subst hr
    exact ⟨id, id⟩
  | cons op rest ih =>
    intro scv s1 hr
    simp only [run] at hr
    rcases hst : step ops op scv with _ | s2
    · simp [hst] at hr
    · rw [hst] at hr
      have h1 := step_keeps_phase ops h v p hkeep op scv s2 hst
      have h2 := ih s2 s1 hr
      exact ⟨fun hp => h2.1 (h1.1 hp), fun hp => h2.2 (h1.2 hp)⟩

/-- C13 at the sample component with the bit-flag instance: phase `1` is set
for hash `9` and for voter `3`, four more calls follow, and both queries
still answer true. -/
theorem C13_phases_are_never_cleared_witness :
    ∃ s0 s1 : SigChainVoting Nat Nat Nat Nat Nat Int,
      run bitOps [Op.SetProposerState 9 1, Op.SetVoterState 3 9 1] sampleVoting = some s0 ∧
      run bitOps
        [Op.SetProposerState 9 2, Op.SetVoterState 3 9 4, Op.SetVotingHeight 7,
          Op.GetBestVotingContent 6] s0 = some s1 ∧
      HasProposerState bitOps s1 9 1 = true ∧ HasVoterState bitOps s1 3 9 1 = true := by
  have hn0 := NoNil_of_reachable bitOps sampleVoting sampleVoting_reachable
  obtain ⟨s0, h0⟩ := run_returns bitOps [Op.SetProposerState 9 1, Op.SetVoterState 3 9 1]
    sampleVoting hn0
  obtain ⟨s1, h1⟩ := run_returns bitOps
    [Op.SetProposerState 9 2, Op.SetVoterState 3 9 4, Op.SetVotingHeight 7,
      Op.GetBestVotingContent 6] s0 (NoNil_run bitOps _ sampleVoting s0 hn0 h0)
  have hp0 : HasProposerState bitOps s0 9 1 = true ∧ HasVoterState bitOps s0 3 9 1 = true := by
    simp only [run, step, Option.bind] at h0
    have e0 : s0 = _ := (Option.some.inj h0).symm
    subst e0
    decide
  have hk := (C13_phases_are_never_cleared bitOps 3 9 1
    (fun x c hx => bitOps_HasBit_keep x 1 c hx)).2 _ s0 s1 h1
  exact ⟨s0, s1, h0, h1, hk.1 hp0.1, hk.2 hp0.2⟩

end Monotone

/-! ## Absent entries and the order of setter calls -/

section Algebra

variable {σ SigChain ChainHash Err Txn Pool : Type}

/-- C18: for every state and two calls `a`, `b`, where `a` is
`SetProposerState(h1, p1)` or `SetVoterState(v1, h1, p1)` and `b` is
`SetProposerState(h2, p2)` or `SetVoterState(v2, h2, p2)` (keys equal or
different), the states left by `a` then `b` and by `b` then `a` agree on every
`HasProposerState` and `HasVoterState` query; in a reachable state both orders
run to their end.  The fact about the `State` methods it rests on is a
hypothesis: `HasBit` does not see the order of `SetBit(p1)` and
`SetBit(p2)`. -/
theorem C18_set_calls_commute (ops : StateOps σ)
    (scv : SigChainVoting σ SigChain ChainHash Err Txn Pool) (v1 v2 : Nat) (h1 h2 : Uint256)
    (p1 p2 : σ)
    (hcomm : ∀ x q, ops.HasBit (ops.SetBit (ops.SetBit x p1) p2) q
      = ops.HasBit (ops.SetBit (ops.SetBit x p2) p1) q) :
    ∀ a b : Op σ Txn,
      (a = Op.SetProposerState h1 p1 ∨ a = Op.SetVoterState v1 h1 p1) →
      (b = Op.SetProposerState h2 p2 ∨ b = Op.SetVoterState v2 h2 p2) →
      (∀ s t, run ops [a, b] scv = some s → run ops [b, a] scv = some t →
        (∀ h q, HasProposerState ops s h q = HasProposerState ops t h q) ∧
        (∀ v h q, HasVoterState ops s v h q = HasVoterState ops t v h q)) ∧
      (Reachable ops scv →
        ∃ s t, run ops [a, b] scv = some s ∧ run ops [b, a] scv = some t) := by
  intro a b ha hb
  constructor
  · intro s t hs ht
    rcases ha with rfl | rfl <;> rcases hb with rfl | rfl
    · exact setOp_pair_comm ops p1 p2 hcomm scv s t none none h1 h2 hs ht
    · exact setOp_pair_comm ops p1 p2 hcomm scv s t none (some v2) h1 h2 hs ht
    · exact setOp_pair_comm ops p1 p2 hcomm scv s t (some v1) none h1 h2 hs ht
    · exact setOp_pair_comm ops p1 p2 hcomm scv s t (some v1) (some v2) h1 h2 hs ht
  · intro hr
    have hn := NoNil_of_reachable ops scv hr
    obtain ⟨s, hs⟩ := run_returns ops [a, b] scv hn
    obtain ⟨t, ht⟩ := run_returns ops [b, a] scv hn
    exact ⟨s, t, hs, ht⟩

/-- C18 at the sample component with the bit-flag instance: the same hash `9`
(and the same voter `3`) in both calls, phases `1` and `2`; two proposer
calls, and two voter calls. -/
theorem C18_set_calls_commute_witness :
    ((∀ s t, run bitOps [(Op.SetProposerState 9 1 : Op Nat Nat), Op.SetProposerState 9 2]
          sampleVoting = some s →
        run bitOps [(Op.SetProposerState 9 2 : Op Nat Nat), Op.SetProposerState 9 1]
          sampleVoting = some t →
        (∀ h q, HasProposerState bitOps s h q = HasProposerState bitOps t h q) ∧
        (∀ v h q, HasVoterState bitOps s v h q = HasVoterState bitOps t v h q)) ∧
      (Reachable bitOps sampleVoting →
        ∃ s t,
          run bitOps [(Op.SetProposerState 9 1 : Op Nat Nat), Op.SetProposerState 9 2]
            sampleVoting = some s ∧
          run bitOps [(Op.SetProposerState 9 2 : Op Nat Nat), Op.SetProposerState 9 1]
            sampleVoting = some t)) ∧
    ((∀ s t, run bitOps [(Op.SetVoterState 3 9 1 : Op Nat Nat), Op.SetVoterState 3 9 2]
          sampleVoting = some s →
        run bitOps [(Op.SetVoterState 3 9 2 : Op Nat Nat), Op.SetVoterState 3 9 1]
          sampleVoting = some t →
        (∀ h q, HasProposerState bitOps s h q = HasProposerState bitOps t h q) ∧
        (∀ v h q, HasVoterState bitOps s v h q = HasVoterState bitOps t v h q)) ∧
      (Reachable bitOps sampleVoting →
        ∃ s t,
          run bitOps [(Op.SetVoterState 3 9 1 : Op Nat Nat), Op.SetVoterState 3 9 2]
            sampleVoting = some s ∧
          run bitOps [(Op.SetVoterState 3 9 2 : Op Nat Nat), Op.SetVoterState 3 9 1]
            sampleVoting = some t)) :=
  ⟨C18_set_calls_commute bitOps sampleVoting 3 3 9 9 1 2
      (fun x q => by rw [bitOps_SetBit_comm x 1 2]) _ _ (Or.inl rfl) (Or.inl rfl),
   C18_set_calls_commute bitOps sampleVoting 3 3 9 9 1 2
      (fun x q => by rw [bitOps_SetBit_comm x 1 2]) _ _ (Or.inr rfl) (Or.inr rfl)⟩

end Algebra

end Voting
